import Mathlib

/-!
Shallow embedding of `slurm_utils.py` / `slurm_sbatch.py` from the
`slurm-array-submit` repository, together with proofs about the
combinatorial index engine, the parameter-file validation, the scheduler
config merge, the array-range formatting and the command substitution.

Python integers are modelled as `Int` (with `Nat` after the non-negativity
check, where Python's `%` and `//` agree with `Nat.mod` / `Nat.div`);
fallible code returns `Except`; ordered dictionaries are association lists.
-/

namespace SlurmUtils

/-- A TOML scalar value as it appears in a parameters file: a string, an
integer, or a float.  A float is carried by its decimal representation
(the string Python's `str` produces for it), which is all the code ever
uses of a float. -/
inductive TVal where
  | s (v : String)
  | i (v : Int)
  | f (v : String)
  deriving DecidableEq

/-- How Python's `str.format` renders a value interpolated into a
template: strings verbatim, integers via `str`, floats via their decimal
representation. -/
def TVal.format : TVal → String
  | .s v => v
  | .i v => toString v
  | .f v => v

/-- Python's `reduce(mul, lengths)` guarded by the `if len(lengths) == 0:
return 1` that both `count_product` and `nth_product` perform:
`reduce` over a non-empty list folds from the head with no initial value. -/
def reduceMul : List Nat → Nat
  | [] => 1
  | h :: t => t.foldl (· * ·) h

/-- Python's `count_product(lists)` from `slurm_utils.py`: the product of the
lengths of the lists, `1` when there are none. -/
def count_product {α : Type} (lists : List (List α)) : Nat :=
  reduceMul (lists.map List.length)

/-- Python's `get_count(params)` from `slurm_utils.py`: `count_product` of the
parameter mapping's value lists. -/
def get_count (params : List (String × List TVal)) : Nat :=
  count_product (params.map Prod.snd)

/-- The `for pool, length in zip(pools, lengths)` loop of `nth_product`:
per pool, pick `pool[index % length]` and divide `index` by `length`.
`none` would mean an out-of-range element access, which Python would
raise on; the loop in the source is only reached with an in-range index,
where the access always succeeds (proved below). -/
def nthLoop {α : Type} : List (List α) → Nat → Option (List α)
  | [], _ => some []
  | pool :: rest, idx =>
    match pool[idx % pool.length]? with
    | none => none
    | some x =>
      match nthLoop rest (idx / pool.length) with
      | none => none
      | some r => some (x :: r)

/-- Python's `nth_product(index, lists)` from `slurm_utils.py`: reverse the lists,
return `()` immediately when there are none, otherwise compute the total,
wrap a negative index once, bounds-check, then run the mixed-radix loop
and reverse the collected digits back. -/
def nth_product {α : Type} (index : Int) (lists : List (List α)) :
    Except Unit (List α) :=
  let pools := lists.reverse
  let lengths := pools.map List.length
  if lengths.isEmpty then Except.ok []
  else
    let total : Nat := reduceMul lengths
    let index1 : Int := if index < 0 then index + total else index
    if 0 ≤ index1 ∧ index1 < (total : Int) then
      match nthLoop pools index1.toNat with
      | some result => Except.ok result.reverse
      | none => Except.error ()
    else Except.error ()

/-- The standard lexicographic cartesian product of a list of lists, the
first list most significant (the order of Python's `itertools.product`,
which `nth_product`'s docstring promises to index into). -/
def cartProd {α : Type} : List (List α) → List (List α)
  | [] => [[]]
  | l :: ls => l.flatMap (fun x => (cartProd ls).map (fun c => x :: c))

deriving instance DecidableEq for Except

theorem foldl_mul_eq (a : Nat) (t : List Nat) : t.foldl (· * ·) a = a * t.prod := by
  induction t generalizing a with
  | nil => simp
  | cons x t ih =>
    simp only [List.foldl_cons, List.prod_cons, ih, Nat.mul_assoc]

theorem reduceMul_eq_prod (L : List Nat) : reduceMul L = L.prod := by
  cases L with
  | nil => rfl
  | cons h t => simp [reduceMul, foldl_mul_eq, List.prod_cons]

theorem count_product_eq_prod {α : Type} (lists : List (List α)) :
    count_product lists = (lists.map List.length).prod :=
  reduceMul_eq_prod _

theorem cartProd_length {α : Type} (ls : List (List α)) :
    (cartProd ls).length = (ls.map List.length).prod := by
  induction ls with
  | nil => rfl
  | cons l ls ih =>
    simp only [cartProd, List.length_flatMap, Function.comp_def, List.length_map]
    rw [List.map_const', List.sum_replicate, smul_eq_mul, List.map_cons,
      List.prod_cons, ih]

theorem nthLoop_append {α : Type} (ps qs : List (List α)) (idx : Nat) :
    nthLoop (ps ++ qs) idx =
      match nthLoop ps idx, nthLoop qs (idx / (ps.map List.length).prod) with
      | some a, some b => some (a ++ b)
      | _, _ => none := by
  induction ps generalizing idx with
  | nil =>
    simp only [List.nil_append, nthLoop, List.map_nil, List.prod_nil, Nat.div_one]
    cases nthLoop qs idx <;> rfl
  | cons p ps ih =>
    simp only [List.cons_append, nthLoop, List.map_cons, List.prod_cons,
      List.append_eq, ih, ← Nat.div_div_eq_div_mul]
    cases p[idx % p.length]? with
    | none => rfl
    | some x =>
      cases nthLoop ps (idx / p.length) with
      | none => rfl
      | some a =>
        cases nthLoop qs (idx / p.length / (ps.map List.length).prod) with
        | none => rfl
        | some b => rfl

theorem nthLoop_mod {α : Type} (ps : List (List α)) (idx : Nat) :
    nthLoop ps (idx % (ps.map List.length).prod) = nthLoop ps idx := by
  induction ps generalizing idx with
  | nil => rfl
  | cons p ps ih =>
    simp only [nthLoop, List.map_cons, List.prod_cons]
    rw [Nat.mod_mod_of_dvd idx (dvd_mul_right p.length (ps.map List.length).prod),
      Nat.mod_mul_right_div_self, ih]

theorem nthLoop_total {α : Type} (ps : List (List α)) (idx : Nat)
    (h : idx < (ps.map List.length).prod) :
    ∃ r, nthLoop ps idx = some r ∧ r.length = ps.length := by
  induction ps generalizing idx with
  | nil => exact ⟨[], rfl, rfl⟩
  | cons p ps ih =>
    simp only [List.map_cons, List.prod_cons] at h
    have hp : 0 < p.length := by
      rcases Nat.eq_zero_or_pos p.length with h0 | h0
      · rw [h0, Nat.zero_mul] at h; omega
      · exact h0
    have hq : 0 < (ps.map List.length).prod := by
      rcases Nat.eq_zero_or_pos (ps.map List.length).prod with h0 | h0
      · rw [h0, Nat.mul_zero] at h; omega
      · exact h0
    have hdiv : idx / p.length < (ps.map List.length).prod := by
      rw [Nat.div_lt_iff_lt_mul hp]
      calc idx < p.length * (ps.map List.length).prod := h
        _ = (ps.map List.length).prod * p.length := Nat.mul_comm _ _
    obtain ⟨r, hr, hrl⟩ := ih (idx / p.length) hdiv
    refine ⟨p.get ⟨idx % p.length, Nat.mod_lt _ hp⟩ :: r, ?_, by simp [hrl]⟩
    simp only [nthLoop, List.getElem?_eq_getElem (Nat.mod_lt idx hp), hr,
      List.get_eq_getElem]

theorem cartProd_cons_getElem? {α : Type} (l : List α) (ls : List (List α))
    (idx : Nat) (h : idx < l.length * (cartProd ls).length) :
    (cartProd (l :: ls))[idx]? =
      (l[idx / (cartProd ls).length]?).bind
        (fun x => ((cartProd ls)[idx % (cartProd ls).length]?).map
          (fun c => x :: c)) := by
  induction l generalizing idx with
  | nil => simp at h
  | cons x xs ih =>
    have hP : 0 < (cartProd ls).length := by
      rcases Nat.eq_zero_or_pos (cartProd ls).length with h0 | h0
      · rw [h0, Nat.mul_zero] at h; omega
      · exact h0
    have hsplit : cartProd ((x :: xs) :: ls)
        = (cartProd ls).map (fun c => x :: c) ++ cartProd (xs :: ls) := by
      simp [cartProd]
    rcases Nat.lt_or_ge idx (cartProd ls).length with hlt | hge
    · rw [hsplit, List.getElem?_append_left (by simpa using hlt),
        List.getElem?_map, Nat.div_eq_of_lt hlt, Nat.mod_eq_of_lt hlt]
      simp [Option.bind]
    · obtain ⟨j, rfl⟩ : ∃ j, idx = j + (cartProd ls).length :=
        ⟨idx - (cartProd ls).length, by omega⟩
      have hj : j < xs.length * (cartProd ls).length := by
        simp only [List.length_cons] at h
        have := h
        nlinarith
      rw [hsplit, List.getElem?_append_right (by simp [hge])]
      simp only [List.length_map, Nat.add_sub_cancel]
      rw [ih j hj, Nat.add_div_right j hP, Nat.add_mod_right j]
      simp

theorem nthLoop_reverse_eq_cartProd {α : Type} (lists : List (List α))
    (idx : Nat) (h : idx < (lists.map List.length).prod) :
    (nthLoop lists.reverse idx).map List.reverse = (cartProd lists)[idx]? := by
  induction lists generalizing idx with
  | nil =>
    simp only [List.map_nil, List.prod_nil, Nat.lt_one_iff] at h
    subst h
    rfl
  | cons l ls ih =>
    simp only [List.map_cons, List.prod_cons] at h
    have hP : 0 < (ls.map List.length).prod := by
      rcases Nat.eq_zero_or_pos (ls.map List.length).prod with h0 | h0
      · rw [h0, Nat.mul_zero] at h; omega
      · exact h0
    have hl : 0 < l.length := by
      rcases Nat.eq_zero_or_pos l.length with h0 | h0
      · rw [h0, Nat.zero_mul] at h; omega
      · exact h0
    have hlen : (cartProd ls).length = (ls.map List.length).prod := cartProd_length ls
    have hq : idx / (ls.map List.length).prod < l.length := by
      rw [Nat.div_lt_iff_lt_mul hP]; exact h
    have hmodlt : idx % (ls.map List.length).prod < (ls.map List.length).prod :=
      Nat.mod_lt _ hP
    have htail := ih (idx % (ls.map List.length).prod) hmodlt
    have hrev : ((ls.reverse).map List.length).prod = (ls.map List.length).prod := by
      rw [List.map_reverse, List.prod_reverse]
    cases hnl : nthLoop ls.reverse (idx % (ls.map List.length).prod) with
    | none =>
      rw [hnl] at htail
      rw [List.getElem?_eq_getElem (hlen ▸ hmodlt)] at htail
      simp at htail
    | some a =>
      rw [hnl] at htail
      have hsingle : nthLoop [l] (idx / (ls.map List.length).prod)
          = some [l.get ⟨idx / (ls.map List.length).prod, hq⟩] := by
        simp [nthLoop, Nat.mod_eq_of_lt hq, List.getElem?_eq_getElem hq]
      rw [List.reverse_cons, nthLoop_append, hrev, ← nthLoop_mod ls.reverse idx,
        hrev, hnl, hsingle, cartProd_cons_getElem? l ls idx (by rw [hlen]; exact h),
        hlen, List.getElem?_eq_getElem hq, ← htail]
      simp

theorem nth_product_of_cartProd {α : Type} (lists : List (List α)) (i : Nat)
    (c : List α) (hc : (cartProd lists)[i]? = some c) :
    nth_product (i : Int) lists = Except.ok c := by
  have hlt : i < (cartProd lists).length := (List.getElem?_eq_some.mp hc).1
  have hi : i < (lists.map List.length).prod := by rwa [cartProd_length] at hlt
  cases lists with
  | nil =>
    simp only [List.map_nil, List.prod_nil, Nat.lt_one_iff] at hi
    subst hi
    simp only [cartProd] at hc
    have hcnil : c = [] := by
      have h2 := (List.getElem?_eq_some.mp hc).2
      simp at h2
      exact h2
    subst hcnil
    rfl
  | cons l ls =>
    have hmain := nthLoop_reverse_eq_cartProd (l :: ls) i hi
    rw [hc] at hmain
    cases hnl : nthLoop (l :: ls).reverse i with
    | none => rw [hnl] at hmain; exact Option.noConfusion hmain
    | some a =>
      rw [hnl, Option.map_some'] at hmain
      have hac : a.reverse = c := by injection hmain
      have hne : (((l :: ls).reverse).map List.length).isEmpty = false := by simp
      have htot : reduceMul (((l :: ls).reverse).map List.length)
          = ((l :: ls).map List.length).prod := by
        rw [reduceMul_eq_prod, List.map_reverse, List.prod_reverse]
      simp only [nth_product, hne, Bool.false_eq_true, if_false, htot]
      rw [if_neg (show ¬((i : Int) < 0) from Int.not_lt.mpr (Int.natCast_nonneg i)),
        if_pos ⟨Int.natCast_nonneg i, by exact_mod_cast hi⟩,
        Int.toNat_natCast, hnl]
      exact congrArg Except.ok hac

/-- C1: enumerating `nth_product(i, lists)` for `i = 0, 1, ...,
count_product(lists) - 1` reproduces the standard lexicographic cartesian
product with the first list most significant; in particular
`nth_product(8, [[0,1],[0,1],[0,1],[0,1]]) = (1,0,0,0)`.  (Proved for every
list of value-lists; non-emptiness is not even needed.) -/
theorem C1_nth_product_enumerates_cartesian_product :
    (∀ (α : Type) (lists : List (List α)),
      (List.range (count_product lists)).map (fun i : Nat => nth_product (i : Int) lists)
        = (cartProd lists).map Except.ok)
    ∧ nth_product (8 : Int) [[0, 1], [0, 1], [0, 1], [0, 1]]
        = Except.ok [(1 : Nat), 0, 0, 0] := by
  constructor
  · intro α lists
    apply List.ext_getElem?
    intro n
    rw [List.getElem?_map, List.getElem?_map]
    rcases Nat.lt_or_ge n (count_product lists) with hlt | hge
    · have hn : n < (cartProd lists).length := by
        rw [cartProd_length, ← count_product_eq_prod]; exact hlt
      rw [List.getElem?_range hlt, List.getElem?_eq_getElem hn,
        Option.map_some', Option.map_some',
        nth_product_of_cartProd lists n _ (List.getElem?_eq_getElem hn)]
    · have h1 : (List.range (count_product lists))[n]? = none :=
        List.getElem?_eq_none (by simpa using hge)
      have h2 : (cartProd lists)[n]? = none :=
        List.getElem?_eq_none (by rw [cartProd_length, ← count_product_eq_prod]; exact hge)
      rw [h1, h2]
      rfl
  · decide

theorem nth_product_cons {α : Type} (l : List α) (ls : List (List α)) (i : Int) :
    nth_product i (l :: ls) =
      if 0 ≤ (if i < 0 then i + (count_product (l :: ls) : Int) else i)
          ∧ (if i < 0 then i + (count_product (l :: ls) : Int) else i)
            < (count_product (l :: ls) : Int) then
        match nthLoop ((l :: ls).reverse)
            (if i < 0 then i + (count_product (l :: ls) : Int) else i).toNat with
        | some result => Except.ok result.reverse
        | none => Except.error ()
      else Except.error () := by
  have hne : (((l :: ls).reverse).map List.length).isEmpty = false := by simp
  have hcount : reduceMul (((l :: ls).reverse).map List.length)
      = count_product (l :: ls) := by
    rw [count_product_eq_prod, reduceMul_eq_prod, List.map_reverse, List.prod_reverse]
  simp only [nth_product, hne, Bool.false_eq_true, if_false, hcount]

theorem nth_product_ok_of_in_range {α : Type} (lists : List (List α)) (i : Int)
    (h1 : -(count_product lists : Int) ≤ i)
    (h2 : i < (count_product lists : Int)) :
    ∃ r, nth_product i lists = Except.ok r ∧ r.length = lists.length := by
  cases lists with
  | nil => exact ⟨[], rfl, rfl⟩
  | cons l ls =>
    rw [nth_product_cons]
    have hprod : (((l :: ls).reverse).map List.length).prod = count_product (l :: ls) := by
      rw [count_product_eq_prod, List.map_reverse, List.prod_reverse]
    by_cases h0 : i < 0
    · rw [if_pos h0, if_pos ⟨by omega, by omega⟩]
      obtain ⟨r, hr, hlen⟩ := nthLoop_total ((l :: ls).reverse)
        (i + (count_product (l :: ls) : Int)).toNat (by rw [hprod]; omega)
      rw [hr]
      exact ⟨r.reverse, rfl, by simp [hlen]⟩
    · rw [if_neg h0, if_pos ⟨by omega, h2⟩]
      obtain ⟨r, hr, hlen⟩ := nthLoop_total ((l :: ls).reverse)
        i.toNat (by rw [hprod]; omega)
      rw [hr]
      exact ⟨r.reverse, rfl, by simp [hlen]⟩

theorem nth_product_error_of_out_of_range {α : Type} (lists : List (List α))
    (hne : lists ≠ []) (i : Int)
    (h : i < -(count_product lists : Int) ∨ (count_product lists : Int) ≤ i) :
    nth_product i lists = Except.error () := by
  cases lists with
  | nil => exact absurd rfl hne
  | cons l ls =>
    rw [nth_product_cons]
    by_cases h0 : i < 0
    · rw [if_pos h0, if_neg (by omega)]
    · rw [if_neg h0, if_neg (by omega)]

/-- C2 counterexample: the claim says `decode(index, [])` fails with an
out-of-range error for every index other than 0, but the code returns the
empty tuple before the bounds check: `nth_product(2, [])` succeeds. -/
theorem C2_counterexample :
    nth_product (2 : Int) ([] : List (List Nat)) = Except.ok []
    ∧ (2 : Int) ≠ 0 :=
  ⟨rfl, by decide⟩

/-- C2 (amended): when the list of value-lists is empty, `nth_product`
returns the empty tuple for EVERY index — the early `return tuple()` at
`len(lengths) == 0` runs before the total is computed, so the wraparound
and out-of-range check are never reached. -/
theorem C2_nth_product_nil_always_empty :
    ∀ (α : Type) (i : Int), nth_product i ([] : List (List α)) = Except.ok [] :=
  fun _ _ => rfl

/-- C3: for every list of value-lists with total `count_product lists` and
every negative index `i` with `-total ≤ i < 0`, `nth_product i lists`
returns the same result as `nth_product (i + total) lists` (Python-slice
style wraparound). -/
theorem C3_negative_index_wraparound :
    ∀ (α : Type) (lists : List (List α)) (i : Int),
      -(count_product lists : Int) ≤ i → i < 0 →
      nth_product i lists = nth_product (i + (count_product lists : Int)) lists := by
  intro α lists i h1 h2
  cases lists with
  | nil => rfl
  | cons l ls =>
    rw [nth_product_cons, nth_product_cons,
      if_pos h2, if_neg (show ¬(i + (count_product (l :: ls) : Int) < 0) from by omega)]

/-- C3 witness: `nth_product (-1) [[0,1],[0,1]] = nth_product 3 [[0,1],[0,1]]`. -/
theorem C3_witness :
    nth_product (-1 : Int) [[(0 : Nat), 1], [0, 1]]
      = nth_product (-1 + (count_product [[(0 : Nat), 1], [0, 1]] : Int))
          [[(0 : Nat), 1], [0, 1]] :=
  C3_negative_index_wraparound Nat [[0, 1], [0, 1]] (-1) (by decide) (by decide)

/-- C4 counterexample: the claim says `nth_product` raises exactly when the
index lies outside `[-total, total)`; with `lists = []` the total is 1 and
index 1 is outside `[-1, 1)`, yet the code returns `()` rather than
raising, because the empty-list early return precedes the bounds check. -/
theorem C4_counterexample :
    nth_product (1 : Int) ([] : List (List Nat)) = Except.ok []
    ∧ count_product ([] : List (List Nat)) = 1
    ∧ ¬((-1 : Int) ≤ 1 ∧ (1 : Int) < 1) :=
  ⟨rfl, rfl, by decide⟩

/-- C4 (amended): for a NON-EMPTY list of value-lists, `nth_product i lists`
raises an out-of-range error exactly when `i` lies outside
`[-total, total)` where `total = count_product lists`; for the empty list
of value-lists it never raises (see `C2`). -/
theorem C4_error_iff_index_out_of_range :
    ∀ (α : Type) (lists : List (List α)) (i : Int), lists ≠ [] →
      (nth_product i lists = Except.error ()
        ↔ ¬(-(count_product lists : Int) ≤ i ∧ i < (count_product lists : Int))) := by
  intro α lists i hne
  constructor
  · intro herr
    by_contra hrange
    obtain ⟨r, hr, -⟩ := nth_product_ok_of_in_range lists i hrange.1 hrange.2
    rw [herr] at hr
    exact Except.noConfusion hr
  · intro hrange
    exact nth_product_error_of_out_of_range lists hne i (by omega)

/-- C4 witness: for `lists = [[0,1]]` (total 2), index 5 is out of range
and `nth_product` indeed errors. -/
theorem C4_witness :
    nth_product (5 : Int) [[(0 : Nat), 1]] = Except.error ()
      ↔ ¬((-2 : Int) ≤ 5 ∧ (5 : Int) < 2) :=
  C4_error_iff_index_out_of_range Nat [[0, 1]] 5 (by decide)

/-- C5: `count_product` is a total pure function with `count_product [] = 1`
and `count_product [L1,...,Ln] = |L1| * ... * |Ln|`; it is defined on every
input (no error cases). -/
theorem C5_count_product_is_product_of_lengths :
    count_product ([] : List (List TVal)) = 1
    ∧ ∀ (α : Type) (lists : List (List α)),
        count_product lists = (lists.map List.length).prod :=
  ⟨rfl, fun _ lists => count_product_eq_prod lists⟩

/-- A top-level key as the TOML decoder may deliver it to
`validate_param_dict`: a string, or some non-string Python object
(abstracted by a tag). -/
inductive TKey where
  | str (k : String)
  | nonStr (tag : Nat)
  deriving DecidableEq

/-- A top-level value as the TOML decoder may deliver it: a list of
scalars, or some non-list Python object (abstracted by a tag). -/
inductive TEntry where
  | list (l : List TVal)
  | nonList (tag : Nat)
  deriving DecidableEq

/-- The two `warnings.warn(..., UserWarning)` messages
`validate_param_dict` can emit, one per rejected entry. -/
inductive Warning where
  | invalidKey
  | invalidValue
  deriving DecidableEq

/-- One iteration of `validate_param_dict`'s loop: a non-string key warns
and skips (checked first), a non-list value warns and skips, a valid
entry is appended to the output dictionary. -/
def validateStep (acc : List (String × List TVal) × List Warning)
    (e : TKey × TEntry) : List (String × List TVal) × List Warning :=
  match e with
  | (.nonStr _, _) => (acc.1, acc.2 ++ [Warning.invalidKey])
  | (.str _, .nonList _) => (acc.1, acc.2 ++ [Warning.invalidValue])
  | (.str k, .list v) => (acc.1 ++ [(k, v)], acc.2)

/-- Python's `validate_param_dict(dict_lists)` from `slurm_utils.py`: iterate over
the entries in order, keeping the valid ones and warning about the rest.
The warnings stream is returned explicitly. -/
def validate_param_dict (d : List (TKey × TEntry)) :
    List (String × List TVal) × List Warning :=
  d.foldl validateStep ([], [])

/-- Spec-side predicate: the entry an iteration keeps, namely a string key
with a list value. -/
def keptEntry : TKey × TEntry → Option (String × List TVal)
  | (.str k, .list v) => some (k, v)
  | _ => none

/-- Spec-side predicate: the warning an iteration emits for a rejected
entry, if any. -/
def rejectedWarning : TKey × TEntry → Option Warning
  | (.nonStr _, _) => some Warning.invalidKey
  | (.str _, .nonList _) => some Warning.invalidValue
  | (.str _, .list _) => none

theorem validate_foldl (d : List (TKey × TEntry)) :
    ∀ acc, d.foldl validateStep acc
      = (acc.1 ++ d.filterMap keptEntry, acc.2 ++ d.filterMap rejectedWarning) := by
  induction d with
  | nil => intro acc; simp
  | cons e d ih =>
    intro acc
    obtain ⟨k, v⟩ := e
    cases k with
    | str s =>
      cases v with
      | list l =>
        simp [List.foldl_cons, validateStep, ih, keptEntry, rejectedWarning,
          List.filterMap_cons]
      | nonList t =>
        simp [List.foldl_cons, validateStep, ih, keptEntry, rejectedWarning,
          List.filterMap_cons]
    | nonStr t =>
      simp [List.foldl_cons, validateStep, ih, keptEntry, rejectedWarning,
        List.filterMap_cons]

theorem filterMap_rejected_length (d : List (TKey × TEntry)) :
    (d.filterMap rejectedWarning).length
      = (d.filter (fun e => (keptEntry e).isNone)).length := by
  induction d with
  | nil => rfl
  | cons e d ih =>
    obtain ⟨k, v⟩ := e
    cases k with
    | str s =>
      cases v with
      | list l => simpa [keptEntry, rejectedWarning] using ih
      | nonList t => simpa [keptEntry, rejectedWarning] using ih
    | nonStr t => simpa [keptEntry, rejectedWarning] using ih

/-- C7: `validate_param_dict` keeps an entry exactly when its key is a
string and its value is a list, in input order (the kept entries are the
`filterMap` of the input), emits one warning per rejected entry, and is a
total function (it never raises). -/
theorem C7_validate_param_dict_keeps_iff_str_key_list_value :
    ∀ d : List (TKey × TEntry),
      (validate_param_dict d).1 = d.filterMap keptEntry
      ∧ (validate_param_dict d).2 = d.filterMap rejectedWarning
      ∧ (validate_param_dict d).2.length
          = (d.filter (fun e => (keptEntry e).isNone)).length := by
  intro d
  rw [validate_param_dict, validate_foldl d ([], [])]
  exact ⟨by simp, by simp, by simp [filterMap_rejected_length d]⟩

/-- Helper for `splitFirstEq`: split a character list at its first `=`. -/
def splitFirstEqAux : List Char → Option (List Char × List Char)
  | [] => none
  | c :: rest =>
    if c = '=' then some ([], rest)
    else (splitFirstEqAux rest).map (fun p => (c :: p.1, p.2))

/-- Python's `override.split("=", maxsplit=1)` as `nth_product`'s caller
uses it: `none` when the string contains no `=` (Python's length-1 result,
warned about and skipped), otherwise the parts before and after the FIRST
`=`. -/
def splitFirstEq (s : String) : Option (String × String) :=
  (splitFirstEqAux s.data).map (fun p => (⟨p.1⟩, ⟨p.2⟩))

/-- Membership test `k in d` for an insertion-ordered string dictionary. -/
def containsKey (d : List (String × String)) (k : String) : Bool :=
  d.any (fun p => p.1 == k)

/-- The assignment `d[k] = v` on an insertion-ordered dictionary
(`OrderedDict` and the Python 3.7+ `dict` alike): an existing key keeps
its position and has its value replaced, a new key is appended at the
end. -/
def dictInsert (d : List (String × String)) (k v : String) :
    List (String × String) :=
  if containsKey d k then
    d.map (fun p => if p.1 == k then (k, v) else p)
  else d ++ [(k, v)]

/-- One iteration of `overrides_to_dict`'s loop: an override without a
`=` is warned about (the offending string is appended to the warnings
stream) and skipped, any other override is assigned into the dictionary. -/
def overrideStep (acc : List (String × String) × List String)
    (override : String) : List (String × String) × List String :=
  match splitFirstEq override with
  | none => (acc.1, acc.2 ++ [override])
  | some (k, v) => (dictInsert acc.1 k v, acc.2)

/-- Python's `overrides_to_dict(overrides)` from `slurm_utils.py`: split each
override on the first `=`, warn about and skip the ones without a `=`,
assign the rest into an ordered dictionary in order.  The warnings
stream is returned explicitly. -/
def overrides_to_dict (overrides : List String) :
    List (String × String) × List String :=
  overrides.foldl overrideStep ([], [])

/-- Python's `config.update(overrides_dict)`: assign each update entry in order. -/
def dictUpdate (d upds : List (String × String)) : List (String × String) :=
  upds.foldl (fun acc p => dictInsert acc p.1 p.2) d

/-- Python's `get_sbatch_config(configfile, overrides)` from `slurm_utils.py`.
Reading the TOML config file and coercing its keys and values to strings
is I/O, modelled by taking the resulting base mapping directly; when
`overrides` is not `None`, the overrides dictionary is applied over the
base with `dict.update` semantics. -/
def get_sbatch_config (config_base : List (String × String))
    (overrides : Option (List String)) : List (String × String) :=
  match overrides with
  | none => config_base
  | some ovs => dictUpdate config_base (overrides_to_dict ovs).1

/-- Spec-side lookup in an association list (first match wins). -/
def alookup (d : List (String × String)) (k : String) : Option String :=
  match d with
  | [] => none
  | p :: rest => if p.1 = k then some p.2 else alookup rest k

theorem containsKey_iff (d : List (String × String)) (k : String) :
    containsKey d k = true ↔ k ∈ d.map Prod.fst := by
  simp only [containsKey, List.any_eq_true, List.mem_map, beq_iff_eq]

theorem containsKey_eq_of_keys_eq (d₁ d₂ : List (String × String))
    (h : d₁.map Prod.fst = d₂.map Prod.fst) (x : String) :
    containsKey d₁ x = containsKey d₂ x := by
  rw [Bool.eq_iff_iff, containsKey_iff, containsKey_iff, h]

theorem alookup_eq_none (d : List (String × String)) (k : String)
    (h : k ∉ d.map Prod.fst) : alookup d k = none := by
  induction d with
  | nil => rfl
  | cons p rest ih =>
    simp only [List.map_cons, List.mem_cons, not_or] at h
    rw [alookup, if_neg (fun he => h.1 he.symm)]
    exact ih h.2

theorem map_fst_dictInsert (d : List (String × String)) (k v : String) :
    (dictInsert d k v).map Prod.fst
      = if containsKey d k then d.map Prod.fst else d.map Prod.fst ++ [k] := by
  rw [dictInsert]
  by_cases h : containsKey d k
  · rw [if_pos h, if_pos h, List.map_map]
    apply List.map_congr_left
    intro p _
    by_cases hp : (p.1 == k) = true
    · simp only [Function.comp_apply]
      rw [if_pos hp]
      exact (beq_iff_eq.mp hp).symm
    · simp only [Function.comp_apply]
      rw [if_neg hp]
  · rw [if_neg h, if_neg h, List.map_append]
    rfl

theorem dictInsert_nodup (d : List (String × String)) (k v : String)
    (h : (d.map Prod.fst).Nodup) : ((dictInsert d k v).map Prod.fst).Nodup := by
  rw [map_fst_dictInsert]
  by_cases hc : containsKey d k
  · rw [if_pos hc]; exact h
  · rw [if_neg hc]
    have hk : k ∉ d.map Prod.fst := fun hm => hc ((containsKey_iff d k).mpr hm)
    simp [List.nodup_append, h, hk]

theorem overrides_fold_nodup (ovs : List String) :
    ∀ acc : List (String × String) × List String,
      (acc.1.map Prod.fst).Nodup →
      (((ovs.foldl overrideStep acc).1).map Prod.fst).Nodup := by
  induction ovs with
  | nil => intro acc h; exact h
  | cons o ovs ih =>
    intro acc h
    rw [List.foldl_cons]
    cases hsp : splitFirstEq o with
    | none =>
      refine ih _ ?_
      simp only [overrideStep, hsp]
      exact h
    | some kv =>
      obtain ⟨k, v⟩ := kv
      refine ih _ ?_
      simp only [overrideStep, hsp]
      exact dictInsert_nodup acc.1 k v h

theorem overrides_fold_snd (ovs : List String) :
    ∀ acc, (ovs.foldl overrideStep acc).2
      = acc.2 ++ ovs.filter (fun s => (splitFirstEq s).isNone) := by
  induction ovs with
  | nil => intro acc; simp
  | cons o ovs ih =>
    intro acc
    rw [List.foldl_cons]
    cases hsp : splitFirstEq o with
    | none =>
      rw [ih]
      simp [overrideStep, hsp, List.filter_cons]
    | some kv =>
      obtain ⟨k, v⟩ := kv
      rw [ih]
      simp [overrideStep, hsp, List.filter_cons]

theorem overrides_fold_fst (ovs : List String) :
    ∀ acc, (ovs.foldl overrideStep acc).1
      = dictUpdate acc.1 (ovs.filterMap splitFirstEq) := by
  induction ovs with
  | nil => intro acc; rfl
  | cons o ovs ih =>
    intro acc
    rw [List.foldl_cons]
    cases hsp : splitFirstEq o with
    | none =>
      rw [ih]
      simp only [overrideStep, hsp, List.filterMap_cons]
    | some kv =>
      obtain ⟨k, v⟩ := kv
      rw [ih]
      simp only [overrideStep, hsp, List.filterMap_cons]
      rfl

theorem dictUpdate_cons (base : List (String × String)) (k v : String)
    (upds : List (String × String)) :
    dictUpdate base ((k, v) :: upds) = dictUpdate (dictInsert base k v) upds := rfl

theorem dictUpdate_structure (upds : List (String × String)) :
    ∀ base : List (String × String),
      (base.map Prod.fst).Nodup → (upds.map Prod.fst).Nodup →
      dictUpdate base upds
        = base.map (fun p => (p.1, (alookup upds p.1).getD p.2))
          ++ upds.filter (fun p => !(containsKey base p.1)) := by
  induction upds with
  | nil =>
    intro base _ _
    simp [dictUpdate, alookup]
  | cons q upds ih =>
    intro base hb hu
    obtain ⟨k, v⟩ := q
    simp only [List.map_cons, List.nodup_cons] at hu
    obtain ⟨hknotin, hundup⟩ := hu
    rw [dictUpdate_cons]
    by_cases hc : containsKey base k
    · have hins : dictInsert base k v
          = base.map (fun p => if p.1 == k then (k, v) else p) := by
        rw [dictInsert, if_pos hc]
      have hkeys : (dictInsert base k v).map Prod.fst = base.map Prod.fst := by
        rw [map_fst_dictInsert, if_pos hc]
      have hnodup' : ((dictInsert base k v).map Prod.fst).Nodup := by
        rw [hkeys]; exact hb
      rw [ih (dictInsert base k v) hnodup' hundup]
      have hmap : (dictInsert base k v).map
            (fun p => (p.1, (alookup upds p.1).getD p.2))
          = base.map (fun p => (p.1, (alookup ((k, v) :: upds) p.1).getD p.2)) := by
        rw [hins, List.map_map]
        apply List.map_congr_left
        intro p _
        by_cases hpk : (p.1 == k) = true
        · have hpe : p.1 = k := beq_iff_eq.mp hpk
          simp only [Function.comp_apply]
          rw [if_pos hpk]
          show (k, (alookup upds k).getD v) = _
          rw [alookup, if_pos hpe.symm, alookup_eq_none upds k hknotin]
          rw [hpe]
          rfl
        · have hpe : ¬(k = p.1) := fun he => hpk (beq_iff_eq.mpr he.symm)
          simp only [Function.comp_apply]
          rw [if_neg hpk]
          show (p.1, (alookup upds p.1).getD p.2) = _
          rw [alookup, if_neg hpe]
      have hfil : upds.filter (fun p => !(containsKey (dictInsert base k v) p.1))
          = upds.filter (fun p => !(containsKey base p.1)) := by
        apply List.filter_congr
        intro p _
        rw [containsKey_eq_of_keys_eq _ _ hkeys]
      rw [hmap, hfil, List.filter_cons]
      simp [hc]
    · have hins : dictInsert base k v = base ++ [(k, v)] := by
        rw [dictInsert, if_neg hc]
      have hknotbase : k ∉ base.map Prod.fst :=
        fun hm => hc ((containsKey_iff base k).mpr hm)
      have hkeys : (dictInsert base k v).map Prod.fst = base.map Prod.fst ++ [k] := by
        rw [map_fst_dictInsert, if_neg hc]
      have hnodup' : ((dictInsert base k v).map Prod.fst).Nodup := by
        rw [hkeys]
        simp [List.nodup_append, hb, hknotbase]
      rw [ih (dictInsert base k v) hnodup' hundup, hins, List.map_append]
      have hmapb : base.map (fun p => (p.1, (alookup upds p.1).getD p.2))
          = base.map (fun p => (p.1, (alookup ((k, v) :: upds) p.1).getD p.2)) := by
        apply List.map_congr_left
        intro p hp
        have hpk : ¬(k = p.1) := by
          intro he
          exact hknotbase (he ▸ List.mem_map.mpr ⟨p, hp, rfl⟩)
        rw [alookup, if_neg hpk]
      have hmaps : [(k, v)].map (fun p => (p.1, (alookup upds p.1).getD p.2))
          = [(k, v)] := by
        simp [alookup_eq_none upds k hknotin]
      have hfil : upds.filter (fun p => !(containsKey (base ++ [(k, v)]) p.1))
          = upds.filter (fun p => !(containsKey base p.1)) := by
        apply List.filter_congr
        intro p hp
        have hpk : ¬(p.1 = k) := by
          intro he
          exact hknotin (he ▸ List.mem_map.mpr ⟨p, hp, rfl⟩)
        have : containsKey (base ++ [(k, v)]) p.1 = containsKey base p.1 := by
          rw [containsKey, List.any_append]
          have h2 : containsKey [(k, v)] p.1 = false := by
            simp [containsKey, beq_iff_eq]
            exact fun he => hpk he.symm
          rw [show ([(k, v)] : List (String × String)).any (fun q => q.1 == p.1)
              = containsKey [(k, v)] p.1 from rfl, h2, Bool.or_false]
          rfl
        rw [this]
      rw [hmapb, hmaps, hfil, List.filter_cons]
      simp [hc]

/-- C8: building the scheduler config splits each override on the first
`=`, warns about (and skips) the overrides without a `=`, assigns the
remaining overrides into an ordered dictionary, and merges it over the
base mapping with `dict.update` semantics: a key already present in the
base keeps its position with its value replaced (the `map` part), a new
key is appended at the end (the `filter` part), and every other base
entry is unchanged. -/
theorem C8_sbatch_config_override_merge :
    ∀ (base : List (String × String)) (ovs : List String),
      (base.map Prod.fst).Nodup →
      (overrides_to_dict ovs).2 = ovs.filter (fun s => (splitFirstEq s).isNone)
      ∧ (overrides_to_dict ovs).1 = dictUpdate [] (ovs.filterMap splitFirstEq)
      ∧ get_sbatch_config base (some ovs)
          = base.map (fun p => (p.1, (alookup (overrides_to_dict ovs).1 p.1).getD p.2))
            ++ (overrides_to_dict ovs).1.filter (fun p => !(containsKey base p.1)) := by
  intro base ovs hb
  refine ⟨by simpa using overrides_fold_snd ovs ([], []), ?_, ?_⟩
  · simpa using overrides_fold_fst ovs ([], [])
  · have hnodup : ((overrides_to_dict ovs).1.map Prod.fst).Nodup :=
      overrides_fold_nodup ovs ([], []) (by simp)
    exact dictUpdate_structure (overrides_to_dict ovs).1 base hb hnodup

/-- C8 witness: the test fixture (base `p=mynode, A=MY-ACCOUNT` with
overrides `z=0`, `A=OTHER-ACCOUNT` and a malformed `bad`): `A` is
replaced in place, `z` is appended, `bad` is warned about and skipped. -/
theorem C8_witness :
    (([("p", "mynode"), ("A", "MY-ACCOUNT")].map Prod.fst).Nodup
      ∧ get_sbatch_config [("p", "mynode"), ("A", "MY-ACCOUNT")]
          (some ["z=0", "A=OTHER-ACCOUNT", "bad"])
        = [("p", "mynode"), ("A", "OTHER-ACCOUNT"), ("z", "0")])
    ∧ (overrides_to_dict ["z=0", "A=OTHER-ACCOUNT", "bad"]).2 = ["bad"] := by
  refine ⟨⟨by decide, ?_⟩, ?_⟩
  · have h := (C8_sbatch_config_override_merge
      [("p", "mynode"), ("A", "MY-ACCOUNT")]
      ["z=0", "A=OTHER-ACCOUNT", "bad"] (by decide)).2.2
    rw [h]
    decide
  · have h := (C8_sbatch_config_override_merge
      [("p", "mynode"), ("A", "MY-ACCOUNT")]
      ["z=0", "A=OTHER-ACCOUNT", "bad"] (by decide)).1
    rw [h]
    decide

/-- Helper for `formatCount`: substitute every occurrence of the
placeholder `\x7bcount\x7d` in a character list by the rendered count. -/
def substCount (v : String) : List Char → List Char
  | '\x7b' :: 'c' :: 'o' :: 'u' :: 'n' :: 't' :: '\x7d' :: rest =>
    v.data ++ substCount v rest
  | c :: rest => c :: substCount v rest
  | [] => []

/-- Python's `template.format(count=count)` for the templates this tool
formats (whose only placeholder is the `count` key and which contain no
escaped braces): every `\x7bcount\x7d` occurrence is replaced by
`str(count)`. -/
def formatCount (template : String) (count : Int) : String :=
  ⟨substCount (toString count) template.data⟩

/-- Python's `get_array_argument(template, paramfile)` from `slurm_utils.py`:
reading and validating the parameters TOML file is I/O, modelled by
taking the validated parameter mapping directly; the template is then
formatted with `count = get_count(params) - 1`, since the scheduler's
array indices are zero-based with an inclusive upper bound. -/
def get_array_argument (template : String)
    (params : List (String × List TVal)) : String :=
  formatCount template ((get_count params : Int) - 1)

/-- The `testfiles/params.toml` fixture of the repository's test suite:
value-lists of sizes 1, 3, 2, 1, 3, 5, 10. -/
def fixtureParams : List (String × List TVal) :=
  [("dataset", [TVal.s "SYNTHETIC"]),
   ("imputation", [TVal.s "MICE", TVal.s "GAIN", TVal.s "Mean"]),
   ("train_percentage", [TVal.f "0.25", TVal.f "0.5"]),
   ("test_percentage", [TVal.f "0.5"]),
   ("holdout_set", [TVal.i 0, TVal.i 1, TVal.i 2]),
   ("val_set", [TVal.i 0, TVal.i 1, TVal.i 2, TVal.i 3, TVal.i 4]),
   ("repeat", [TVal.i 0, TVal.i 1, TVal.i 2, TVal.i 3, TVal.i 4,
               TVal.i 5, TVal.i 6, TVal.i 7, TVal.i 8, TVal.i 9])]

/-- C9: the array range string is the template with the count placeholder
replaced by `totalCount - 1`; on the fixture with value-list sizes
`[1,3,2,1,3,5,10]` the count is 900, template `0-\x7bcount\x7d` yields
`0-899` and `0-\x7bcount\x7d%10` yields `0-899%10`. -/
theorem C9_array_argument_formats_count_minus_one :
    (∀ (template : String) (params : List (String × List TVal)),
      get_array_argument template params
        = formatCount template ((get_count params : Int) - 1))
    ∧ get_count fixtureParams = 900
    ∧ get_array_argument "0-\x7bcount\x7d" fixtureParams = "0-899"
    ∧ get_array_argument "0-\x7bcount\x7d%10" fixtureParams = "0-899%10" :=
  ⟨fun _ _ => rfl, by decide, by decide, by decide⟩

/-- A parameter mapping with an empty value-list, for C10. -/
def emptyListFixture : List (String × List TVal) :=
  [("dataset", [TVal.s "SYNTHETIC"]), ("values", [])]

/-- C10 (implicit): when some value-list is empty, `count_product` is 0
(the product has a zero factor) and the array-range computation raises no
error: the template is formatted with `count = -1`, so the default
template `0-\x7bcount\x7d` produces the string `0--1`. -/
theorem C10_empty_value_list_gives_count_zero_and_dash_minus_one :
    (∀ (α : Type) (lists : List (List α)),
      (∃ l ∈ lists, l = []) → count_product lists = 0)
    ∧ get_count emptyListFixture = 0
    ∧ get_array_argument "0-\x7bcount\x7d" emptyListFixture = "0--1" := by
  refine ⟨?_, by decide, by decide⟩
  intro α lists hl
  obtain ⟨l, hmem, hnil⟩ := hl
  rw [count_product_eq_prod]
  exact List.prod_eq_zero
    (List.mem_map.mpr ⟨l, hmem, by rw [hnil]; rfl⟩)

/-- C10 witness: `count_product [[0], []] = 0` via the theorem's first
conjunct, and the concrete array-range string. -/
theorem C10_witness :
    count_product [[(0 : Nat)], []] = 0
    ∧ get_array_argument "0-\x7bcount\x7d" emptyListFixture = "0--1" :=
  ⟨C10_empty_value_list_gives_count_zero_and_dash_minus_one.1 Nat [[0], []]
      ⟨[], by simp⟩,
    C10_empty_value_list_gives_count_zero_and_dash_minus_one.2.2⟩

/-- One piece of a Python format-string template, as `str.format_map`
parses it: a literal run of characters, or a `\x7bname\x7d` placeholder. -/
inductive Frag where
  | lit (s : String)
  | hole (name : String)
  deriving DecidableEq

/-- Lookup in the single-combination mapping built by
`dict(zip(params.keys(), nth_values))`.  First match wins, which agrees
with the Python dict because the keys come from an ordered dictionary and
are therefore unique. -/
def lookupTVal : List (String × TVal) → String → Option TVal
  | [], _ => none
  | p :: rest, n => if p.1 = n then some p.2 else lookupTVal rest n

/-- Python's `command.format_map(mapping)`: concatenate the pieces,
replacing each placeholder by the formatted value of its key; a
placeholder whose name is missing from the mapping raises `KeyError`
carrying that name. -/
def format_map (frags : List Frag) (env : List (String × TVal)) :
    Except String String :=
  match frags with
  | [] => Except.ok ""
  | Frag.lit s :: rest => (format_map rest env).map (fun t => s ++ t)
  | Frag.hole n :: rest =>
    match lookupTVal env n with
    | some v => (format_map rest env).map (fun t => v.format ++ t)
    | none => Except.error n

/-- Spec-side total rendering: the template with each placeholder
replaced by the value of its name (missing names render as nothing; they
cannot occur where this function is used). -/
def renderSubst (frags : List Frag) (env : List (String × TVal)) : String :=
  match frags with
  | [] => ""
  | Frag.lit s :: rest => s ++ renderSubst rest env
  | Frag.hole n :: rest =>
    (match lookupTVal env n with
     | some v => v.format
     | none => "") ++ renderSubst rest env

/-- The two Python exceptions `substitute_nth` can raise: `IndexError`
from `nth_product`, and `KeyError` (carrying the missing placeholder
name) from `str.format_map`. -/
inductive PyErr where
  | indexError
  | keyError (name : String)
  deriving DecidableEq

/-- Python's `substitute_nth(nth, params, command)` from `slurm_utils.py`: decode
the nth combination of the parameter mapping's value lists, zip the
parameter names with the decoded values into a single-combination
mapping, and substitute it into the command template. -/
def substitute_nth (nth : Int) (params : List (String × List TVal))
    (command : List Frag) : Except PyErr String :=
  match nth_product nth (params.map Prod.snd) with
  | Except.error () => Except.error PyErr.indexError
  | Except.ok vals =>
    match format_map command ((params.map Prod.fst).zip vals) with
    | Except.error n => Except.error (PyErr.keyError n)
    | Except.ok s => Except.ok s

theorem format_map_error_iff (frags : List Frag) (env : List (String × TVal)) :
    (∃ n, format_map frags env = Except.error n)
      ↔ (∃ n, Frag.hole n ∈ frags ∧ lookupTVal env n = none) := by
  induction frags with
  | nil => simp [format_map]
  | cons f rest ih =>
    cases f with
    | lit s =>
      rw [format_map]
      constructor
      · rintro ⟨n, hn⟩
        cases hfm : format_map rest env with
        | error m =>
          obtain ⟨n', hmem, hnone⟩ := ih.mp ⟨m, hfm⟩
          exact ⟨n', List.mem_cons_of_mem _ hmem, hnone⟩
        | ok s' => rw [hfm] at hn; exact Except.noConfusion hn
      · rintro ⟨n, hmem, hnone⟩
        rcases List.mem_cons.mp hmem with he | hmem'
        · exact Frag.noConfusion he
        · obtain ⟨m, hm⟩ := ih.mpr ⟨n, hmem', hnone⟩
          rw [hm]
          exact ⟨m, rfl⟩
    | hole n0 =>
      rw [format_map]
      cases hlk : lookupTVal env n0 with
      | none =>
        constructor
        · intro _
          exact ⟨n0, List.mem_cons_self _ _, hlk⟩
        · intro _
          exact ⟨n0, rfl⟩
      | some v =>
        constructor
        · rintro ⟨n, hn⟩
          cases hfm : format_map rest env with
          | error m =>
            obtain ⟨n', hmem, hnone⟩ := ih.mp ⟨m, hfm⟩
            exact ⟨n', List.mem_cons_of_mem _ hmem, hnone⟩
          | ok s' => rw [hfm] at hn; exact Except.noConfusion hn
        · rintro ⟨n, hmem, hnone⟩
          rcases List.mem_cons.mp hmem with he | hmem'
          · cases he
            rw [hlk] at hnone
            exact Option.noConfusion hnone
          · obtain ⟨m, hm⟩ := ih.mpr ⟨n, hmem', hnone⟩
            rw [hm]
            exact ⟨m, rfl⟩

theorem format_map_ok (frags : List Frag) (env : List (String × TVal))
    (h : ∀ n, Frag.hole n ∈ frags → ∃ v, lookupTVal env n = some v) :
    format_map frags env = Except.ok (renderSubst frags env) := by
  induction frags with
  | nil => rfl
  | cons f rest ih =>
    cases f with
    | lit s =>
      rw [format_map, renderSubst, ih (fun n hn => h n (List.mem_cons_of_mem _ hn))]
      rfl
    | hole n0 =>
      obtain ⟨v, hv⟩ := h n0 (List.mem_cons_self _ _)
      rw [format_map, renderSubst, hv,
        ih (fun n hn => h n (List.mem_cons_of_mem _ hn))]
      rfl

theorem lookup_zip_none_iff (keys : List String) :
    ∀ (vals : List TVal), keys.length = vals.length → ∀ n,
      (lookupTVal (keys.zip vals) n = none ↔ n ∉ keys) := by
  induction keys with
  | nil => intro vals _ n; simp [lookupTVal]
  | cons k keys ih =>
    intro vals hlen n
    cases vals with
    | nil => exact absurd hlen (by simp)
    | cons v vals =>
      simp only [List.length_cons, Nat.succ_inj] at hlen
      rw [List.zip_cons_cons, lookupTVal]
      by_cases hk : k = n
      · rw [if_pos hk]
        simp [hk]
      · rw [if_neg hk]
        rw [ih vals hlen n]
        simp only [List.mem_cons, not_or]
        exact ⟨fun h2 => ⟨fun he => hk he.symm, h2⟩, fun h2 => h2.2⟩

/-- The valid command template of `test_substitute_nth`:
`python3 myscript.py --dataset=\x7bdataset\x7d \x7bimputation\x7d
\x7bholdout_set\x7d --val=\x7bval_set\x7d --repeat=\x7brepeat\x7d`. -/
def goodCommand : List Frag :=
  [Frag.lit "python3 myscript.py --dataset=", Frag.hole "dataset",
   Frag.lit " ", Frag.hole "imputation", Frag.lit " ", Frag.hole "holdout_set",
   Frag.lit " --val=", Frag.hole "val_set", Frag.lit " --repeat=", Frag.hole "repeat"]

/-- The command template of `test_substitute_nth_bad`: `goodCommand`
followed by ` --unknown=\x7bunknown\x7d`, whose placeholder is not a
parameter name. -/
def badCommand : List Frag :=
  goodCommand ++ [Frag.lit " --unknown=", Frag.hole "unknown"]

/-- C6: for every valid index and parameter set, `substitute_nth` raises
a missing-key error exactly when the template references a placeholder
name absent from the parameter names; when all referenced placeholders
are present it substitutes the decoded combination into the template.  On
the 900-combination fixture, the undeclared placeholder at index 370
raises `KeyError` and the valid template at index 687 yields the exact
expected command string. -/
theorem C6_substitute_nth_missing_key_iff_undeclared_placeholder :
    (∀ (params : List (String × List TVal)) (command : List Frag) (i : Int),
      -(get_count params : Int) ≤ i → i < (get_count params : Int) →
      ((∃ n, substitute_nth i params command = Except.error (PyErr.keyError n))
          ↔ (∃ n, Frag.hole n ∈ command ∧ n ∉ params.map Prod.fst))
      ∧ ((∀ n, Frag.hole n ∈ command → n ∈ params.map Prod.fst) →
          ∃ vals, nth_product i (params.map Prod.snd) = Except.ok vals
            ∧ substitute_nth i params command
                = Except.ok (renderSubst command ((params.map Prod.fst).zip vals))))
    ∧ substitute_nth 370 fixtureParams badCommand
        = Except.error (PyErr.keyError "unknown")
    ∧ substitute_nth 687 fixtureParams goodCommand
        = Except.ok
            "python3 myscript.py --dataset=SYNTHETIC Mean 1 --val=3 --repeat=7" := by
  refine ⟨?_, by decide, by decide⟩
  intro params command i h1 h2
  obtain ⟨vals, hdec, hlen⟩ :=
    nth_product_ok_of_in_range (params.map Prod.snd) i h1 h2
  have hklen : (params.map Prod.fst).length = vals.length := by
    rw [hlen]; simp
  constructor
  · cases hfm : format_map command ((params.map Prod.fst).zip vals) with
    | error m =>
      constructor
      · intro _
        obtain ⟨n', hmem, hnone⟩ :=
          (format_map_error_iff command _).mp ⟨m, hfm⟩
        exact ⟨n', hmem,
          (lookup_zip_none_iff (params.map Prod.fst) vals hklen n').mp hnone⟩
      · intro _
        exact ⟨m, by simp [substitute_nth, hdec, hfm]⟩
    | ok s =>
      constructor
      · rintro ⟨n, hn⟩
        simp only [substitute_nth, hdec, hfm] at hn
        exact Except.noConfusion hn
      · rintro ⟨n, hmem, hnotin⟩
        obtain ⟨m, hm⟩ := (format_map_error_iff command _).mpr
          ⟨n, hmem,
            (lookup_zip_none_iff (params.map Prod.fst) vals hklen n).mpr hnotin⟩
        rw [hm] at hfm
        exact Except.noConfusion hfm
  · intro hall
    have hpre : ∀ n, Frag.hole n ∈ command →
        ∃ v, lookupTVal ((params.map Prod.fst).zip vals) n = some v := by
      intro n hn
      have hin : n ∈ params.map Prod.fst := hall n hn
      cases hlk : lookupTVal ((params.map Prod.fst).zip vals) n with
      | none =>
        exact absurd
          ((lookup_zip_none_iff (params.map Prod.fst) vals hklen n).mp hlk)
          (fun hc => hc hin)
      | some v => exact ⟨v, rfl⟩
    refine ⟨vals, hdec, ?_⟩
    simp only [substitute_nth, hdec,
      format_map_ok command ((params.map Prod.fst).zip vals) hpre]

/-- C6 witness: the general part of the theorem applied to the fixture at
index 370 with the undeclared-placeholder template. -/
theorem C6_witness :
    (∃ n, substitute_nth 370 fixtureParams badCommand
        = Except.error (PyErr.keyError n))
      ↔ (∃ n, Frag.hole n ∈ badCommand ∧ n ∉ fixtureParams.map Prod.fst) :=
  (C6_substitute_nth_missing_key_iff_undeclared_placeholder.1
    fixtureParams badCommand 370 (by decide) (by decide)).1

end SlurmUtils
